import Mathlib

/-
Verification development for the `beerec-variants` derive macro: the
variant-naming resolution engine (primary and abbreviated string
representations, skip filtering, quoted listings, and the reverse
string-to-variant match branches).

Strings are modelled as lists of Unicode scalar values (code points).
Equality of two such lists coincides with byte-for-byte equality of the
corresponding UTF-8 encoded Rust strings. Rust's `String::truncate`
aborts (panics) when the requested length is not a character boundary;
that partiality is modelled with `Option`, `none` standing for the abort.
-/

namespace BeerecVariants

/-- A Rust string (or identifier), modelled as its list of Unicode scalar
values. -/
abbrev Str := List Nat

/-- Conversion from a Lean string literal to the code-point list model,
used to write concrete inputs readably. -/
def codepoints (s : String) : Str := s.data.map Char.toNat

/-- Number of bytes of the UTF-8 encoding of one Unicode scalar value. -/
def utf8Size (c : Nat) : Nat :=
  if c < 0x80 then 1 else if c < 0x800 then 2 else if c < 0x10000 then 3 else 4

/-- UTF-8 byte length of a string, Rust's `str::len`. -/
def byteLen (s : Str) : Nat := (s.map utf8Size).sum

/-- Per-code-point ASCII uppercase map: the byte map applied by Rust's
`str::make_ascii_uppercase` (bytes `a`..`z` shifted down by 32, everything
else unchanged). -/
def asciiUpperChar (c : Nat) : Nat := if 97 ≤ c ∧ c ≤ 122 then c - 32 else c

/-- Per-code-point ASCII lowercase map: the byte map applied by Rust's
`str::make_ascii_lowercase` (bytes `A`..`Z` shifted up by 32, everything
else unchanged). -/
def asciiLowerChar (c : Nat) : Nat := if 65 ≤ c ∧ c ≤ 90 then c + 32 else c

/-- Per-code-point map of Rust's Unicode-aware `str::to_lowercase`, which
`IdentExt::to_lowercase_string` (src/ident.rs) calls. The model is exact
for every code point below U+0100: there the Unicode lowercase mapping
adds 0x20 on the ranges U+0041..U+005A, U+00C0..U+00D6 and U+00D8..U+00DE
and fixes all other code points. For code points at or above U+0100 the
model returns the code point unchanged; no theorem below evaluates the
map outside the exact range. -/
def unicodeLowerChar (c : Nat) : Nat :=
  if 65 ≤ c ∧ c ≤ 90 then c + 32
  else if (0xC0 ≤ c ∧ c ≤ 0xD6) ∨ (0xD8 ≤ c ∧ c ≤ 0xDE) then c + 32
  else c

/-- Rust `StringExt::to_uppercase_in_place` (src/string.rs), which calls
`String::make_ascii_uppercase`. -/
def to_uppercase_in_place (s : Str) : Str := s.map asciiUpperChar

/-- Rust `StringExt::to_lowercase_in_place` (src/string.rs), which calls
`String::make_ascii_lowercase`. -/
def to_lowercase_in_place (s : Str) : Str := s.map asciiLowerChar

/-- Rust `str::to_lowercase`, the Unicode-aware lowercase conversion used
by `IdentExt::to_lowercase_string` (src/ident.rs line 30). -/
def str_to_lowercase (s : Str) : Str := s.map unicodeLowerChar

/-- Rust `String::truncate n` on the model: keeps code points while their
cumulative UTF-8 size fits within `n` bytes. When the string is at most
`n` bytes it is returned unchanged; when byte index `n` falls strictly
inside a multi-byte code point `String::truncate` aborts (`n` is not a
char boundary), modelled as `none`. -/
def truncateBytes (n : Nat) : Str → Option Str
  | [] => some []
  | c :: cs =>
    if n = 0 then some []
    else if utf8Size c ≤ n then (truncateBytes (n - utf8Size c) cs).map (c :: ·)
    else none

/-- Rust `StringExt::to_abbr_in_place` (src/string.rs), which calls
`String::truncate(3)`. -/
def to_abbr_in_place (s : Str) : Option Str := truncateBytes 3 s

/-- Rust `IdentExt::to_uppercase_string` (src/ident.rs):
`to_string().to_uppercase_in_place()`. -/
def to_uppercase_string (ident : Str) : Str := to_uppercase_in_place ident

/-- Rust `IdentExt::to_lowercase_string` (src/ident.rs):
`to_string().to_lowercase()` — note this is the Unicode-aware lowercase,
unlike every other case conversion in the crate. -/
def to_lowercase_string (ident : Str) : Str := str_to_lowercase ident

/-- Rust `IdentExt::to_string_abbr` (src/ident.rs):
`to_string().to_abbr_in_place()`. -/
def to_string_abbr (ident : Str) : Option Str := to_abbr_in_place ident

/-- Rust `IdentExt::to_uppercase_string_abbr` (src/ident.rs):
`to_string_abbr().to_uppercase_in_place()`. -/
def to_uppercase_string_abbr (ident : Str) : Option Str :=
  (to_string_abbr ident).map to_uppercase_in_place

/-- Rust `IdentExt::to_lowercase_string_abbr` (src/ident.rs):
`to_string_abbr().to_lowercase_in_place()`. -/
def to_lowercase_string_abbr (ident : Str) : Option Str :=
  (to_string_abbr ident).map to_lowercase_in_place

/-- Value-level rename strategy (src/rename/inner.rs). -/
inductive InnerRenameStrategy where
  | Literal (literal : Str)
  | Uppercase
  | Lowercase
deriving DecidableEq, Repr

/-- Type-level rename strategy (src/rename/outer.rs). -/
inductive OuterRenameStrategy where
  | Uppercase
  | Lowercase
deriving DecidableEq, Repr

/-- One parsed enum variant (src/target/variant.rs, `TargetVariant`). -/
structure TargetVariant where
  ident : Str
  rename : Option InnerRenameStrategy
  rename_abbr : Option InnerRenameStrategy
  skip : Bool
deriving DecidableEq, Repr

/-- Rust `TargetVariant::is_iterable`. -/
def is_iterable (v : TargetVariant) : Bool := !v.skip

/-- Rust `TargetVariant::ident` (the `Option`-returning accessor):
`is_iterable().then_some(&self.ident)`. -/
def ident_if_iterable (v : TargetVariant) : Option Str :=
  if is_iterable v then some v.ident else none

/-- Rust `TargetVariant::inner_rename`. -/
def inner_rename (v : TargetVariant) : Option Str :=
  v.rename.map fun rename =>
    match rename with
    | .Literal literal => literal
    | .Uppercase => to_uppercase_string v.ident
    | .Lowercase => to_lowercase_string v.ident

/-- Rust `TargetVariant::outer_rename`. -/
def outer_rename (v : TargetVariant) (o : Option OuterRenameStrategy) : Str :=
  match o with
  | some .Uppercase => to_uppercase_string v.ident
  | some .Lowercase => to_lowercase_string v.ident
  | none => v.ident

/-- Rust `TargetVariant::as_str`: the final (primary) string
representation of the variant. -/
def as_str (v : TargetVariant) (o : Option OuterRenameStrategy) : Str :=
  (inner_rename v).getD (outer_rename v o)

/-- Rust `TargetVariant::as_quoted_string`: `format!("\x7b\x7d", ...)`
with surrounding double quotes. -/
def as_quoted_string (v : TargetVariant) (o : Option OuterRenameStrategy) : Str :=
  codepoints "\"" ++ as_str v o ++ codepoints "\""

/-- Rust `TargetVariant::inner_rename_abbr_uppercase`. -/
def inner_rename_abbr_uppercase (v : TargetVariant) : Option Str :=
  match inner_rename v with
  | some name => to_abbr_in_place (to_uppercase_in_place name)
  | none => to_uppercase_string_abbr v.ident

/-- Rust `TargetVariant::inner_rename_abbr_lowercase`. -/
def inner_rename_abbr_lowercase (v : TargetVariant) : Option Str :=
  match inner_rename v with
  | some name => to_abbr_in_place (to_lowercase_in_place name)
  | none => to_lowercase_string_abbr v.ident

/-- Rust `TargetVariant::inner_rename_abbr`: outer `Option` is presence of
the `rename_abbr` attribute, inner `Option` is the possible truncation
abort. -/
def inner_rename_abbr (v : TargetVariant) : Option (Option Str) :=
  v.rename_abbr.map fun rename_abbr =>
    match rename_abbr with
    | .Literal literal => some literal
    | .Uppercase => inner_rename_abbr_uppercase v
    | .Lowercase => inner_rename_abbr_lowercase v

/-- Rust `TargetVariant::outer_rename_abbr_uppercase` (its body is
duplicated from `inner_rename_abbr_uppercase` in the source). -/
def outer_rename_abbr_uppercase (v : TargetVariant) : Option Str :=
  match inner_rename v with
  | some name => to_abbr_in_place (to_uppercase_in_place name)
  | none => to_uppercase_string_abbr v.ident

/-- Rust `TargetVariant::outer_rename_abbr_lowercase` (its body is
duplicated from `inner_rename_abbr_lowercase` in the source). -/
def outer_rename_abbr_lowercase (v : TargetVariant) : Option Str :=
  match inner_rename v with
  | some name => to_abbr_in_place (to_lowercase_in_place name)
  | none => to_lowercase_string_abbr v.ident

/-- Rust `TargetVariant::outer_rename_abbr`. -/
def outer_rename_abbr (v : TargetVariant)
    (o oa : Option OuterRenameStrategy) : Option Str :=
  match oa with
  | some .Uppercase => outer_rename_abbr_uppercase v
  | some .Lowercase => outer_rename_abbr_lowercase v
  | none => to_abbr_in_place (as_str v o)

/-- Rust `TargetVariant::as_str_abbr`: the final abbreviated string
representation of the variant. -/
def as_str_abbr (v : TargetVariant)
    (o oa : Option OuterRenameStrategy) : Option Str :=
  match inner_rename_abbr v with
  | some r => r
  | none => outer_rename_abbr v o oa

/-- Rust `TargetVariant::as_quoted_string_abbr`. -/
def as_quoted_string_abbr (v : TargetVariant)
    (o oa : Option OuterRenameStrategy) : Option Str :=
  (as_str_abbr v o oa).map fun s => codepoints "\"" ++ s ++ codepoints "\""

/-- One generated `as_str` match arm `Self::ident => name`
(`TargetVariant::as_str_match_branch`). -/
structure AsStrBranch where
  variant_ident : Str
  name : Str
deriving DecidableEq, Repr

/-- Rust `TargetVariant::as_str_match_branch`. -/
def as_str_match_branch (v : TargetVariant)
    (o : Option OuterRenameStrategy) : AsStrBranch :=
  ⟨v.ident, as_str v o⟩

/-- Rust `TargetVariant::as_str_abbr_match_branch` (`none` when the
abbreviation computation aborts). -/
def as_str_abbr_match_branch (v : TargetVariant)
    (o oa : Option OuterRenameStrategy) : Option AsStrBranch :=
  (as_str_abbr v o oa).map fun name_abbr => ⟨v.ident, name_abbr⟩

/-- One generated `FromStr` match arm `name | name_abbr => Ok(Self::ident)`
(`TargetVariant::from_str_match_branch`). -/
structure FromStrBranch where
  name : Str
  name_abbr : Str
  variant_ident : Str
deriving DecidableEq, Repr

/-- Rust `TargetVariant::from_str_match_branch`. -/
def from_str_match_branch (v : TargetVariant)
    (o oa : Option OuterRenameStrategy) : Option FromStrBranch :=
  (as_str_abbr v o oa).map fun name_abbr => ⟨as_str v o, name_abbr, v.ident⟩

/-- Collects a list of fallible computations, failing as soon as one
fails: the effect of driving a Rust iterator whose items may abort. -/
def mapOption (f : α → Option β) : List α → Option (List β)
  | [] => some []
  | a :: l => (f a).bind fun b => (mapOption f l).map (b :: ·)

/-- The parsed enum (src/target/enum.rs, `TargetEnum`). -/
structure TargetEnum where
  ident : Str
  variants : List TargetVariant
  rename : Option OuterRenameStrategy
  rename_abbr : Option OuterRenameStrategy
  display : Bool
  from_str : Bool

/-- Rust `TargetEnum::iter_variants`. -/
def iter_variants (e : TargetEnum) : List TargetVariant := e.variants

/-- Rust `TargetEnum::iter_iterable_variants`. -/
def iter_iterable_variants (e : TargetEnum) : List TargetVariant :=
  (iter_variants e).filter is_iterable

/-- Rust `TargetEnum::variants_count`. -/
def variants_count (e : TargetEnum) : Nat :=
  (iter_iterable_variants e).length

/-- Rust `TargetEnum::iter_variant_idents`. -/
def iter_variant_idents (e : TargetEnum) : List Str :=
  (iter_iterable_variants e).filterMap ident_if_iterable

/-- Rust `TargetEnum::iter_variant_as_str_match_branches` — note it maps
over all variants, skipped ones included. -/
def iter_variant_as_str_match_branches (e : TargetEnum) : List AsStrBranch :=
  (iter_variants e).map (as_str_match_branch · e.rename)

/-- Rust `TargetEnum::iter_variant_as_str_abbr_match_branches` — note it
maps over all variants, skipped ones included. -/
def iter_variant_as_str_abbr_match_branches (e : TargetEnum) :
    List (Option AsStrBranch) :=
  (iter_variants e).map fun v => as_str_abbr_match_branch v e.rename e.rename_abbr

/-- Itertools `intersperse` followed by `collect::<String>()`. -/
def intersperse_collect (sep : Str) (xs : List Str) : Str :=
  (List.intersperse sep xs).flatten

/-- Rust `TargetEnum::variants_list_string`. -/
def variants_list_string (e : TargetEnum) : Str :=
  intersperse_collect (codepoints ", ")
    ((iter_iterable_variants e).map (as_quoted_string · e.rename))

/-- Rust `TargetEnum::variants_list_string_abbr`. -/
def variants_list_string_abbr (e : TargetEnum) : Option Str :=
  (mapOption (fun v => as_quoted_string_abbr v e.rename e.rename_abbr)
      (iter_iterable_variants e)).map
    (intersperse_collect (codepoints ", "))

/-- Rust `TargetEnum::variants_from_str_match_branches`. -/
def variants_from_str_match_branches (e : TargetEnum) :
    Option (List FromStrBranch) :=
  mapOption (fun v => from_str_match_branch v e.rename e.rename_abbr)
    (iter_iterable_variants e)

/-- Failure condition of the generated reverse lookup. -/
inductive FromStrError where
  | notFound
deriving DecidableEq, Repr

/-- Modelled from the spec: the emission layer that wraps the generated
match branches into a `FromStr` implementation with a trailing catch-all
error arm is not under src/ (only `variants_from_str_match_branches` is).
Following spec section 4.4, the lookup returns the first branch, in
declaration order, whose primary or abbreviated key equals the input
byte-for-byte, and fails with `NotFound` when no key matches — exactly the
semantics of a Rust `match` over the literal-pattern arms
`name | name_abbr => Ok(Self::ident)` followed by a catch-all `Err` arm. -/
def from_str_lookup (branches : List FromStrBranch) (input : Str) :
    Except FromStrError Str :=
  match branches.find? (fun b => b.name == input || b.name_abbr == input) with
  | some b => .ok b.variant_ident
  | none => .error .notFound

/-! Specification-side definitions, written following the spec's words, to be
compared with the definitions translated from the source. -/

/-- Specification-side primary-name cascade of spec section 4.1, first match
wins: a value-level literal verbatim, a value-level case transform of the
identifier, a type-level case transform of the identifier, else the identifier
unchanged. The case transforms themselves are the source's transforms (their
ASCII-only status is a separate claim). -/
def resolve_primary (v : TargetVariant)
    (type_primary : Option OuterRenameStrategy) : Str :=
  match v.rename with
  | some (.Literal literal) => literal
  | some .Uppercase => to_uppercase_string v.ident
  | some .Lowercase => to_lowercase_string v.ident
  | none =>
    match type_primary with
    | some .Uppercase => to_uppercase_string v.ident
    | some .Lowercase => to_lowercase_string v.ident
    | none => v.ident

/-- Specification-side value-level primary base of spec section 4.2: steps 1-3
of the primary cascade with no type-level fallback, i.e. the value-level
override if present, else the raw identifier. -/
def value_level_primary_base (v : TargetVariant) : Str :=
  match v.rename with
  | some (.Literal literal) => literal
  | some .Uppercase => to_uppercase_string v.ident
  | some .Lowercase => to_lowercase_string v.ident
  | none => v.ident

/-- Specification-side key-match predicate of spec section 4.4: the input
equals the resolved primary key or the resolved abbreviated key byte-for-byte
(no case folding at lookup time). -/
def key_matches (v : TargetVariant) (o oa : Option OuterRenameStrategy)
    (input : Str) : Bool :=
  (as_str v o == input) || (as_str_abbr v o oa == some input)

/-- Specification-side listing join of spec section 4.3: the given strings
joined with the two-character separator comma-space, the empty list yielding
the empty string. -/
def quoted_join_spec : List Str → Str
  | [] => []
  | [s] => s
  | s :: rest => s ++ codepoints ", " ++ quoted_join_spec rest

/-! Concrete tables used by the witnesses, following the Weekday scenario of
spec section 8. -/

/-- Example variant `Monday`, marked skip, no rename attributes. -/
def mondayV : TargetVariant := ⟨codepoints "Monday", none, none, true⟩

/-- Example variant `Tuesday` with a literal primary rename and a literal
abbreviation rename. -/
def tuesdayV : TargetVariant :=
  ⟨codepoints "Tuesday", some (.Literal (codepoints "DayAfterMonday")),
    some (.Literal (codepoints "tue")), false⟩

/-- Example variant `Wednesday`, no rename attributes, not skipped. -/
def wednesdayV : TargetVariant := ⟨codepoints "Wednesday", none, none, false⟩

/-- Example variant with a long literal abbreviation override. -/
def televisionV : TargetVariant :=
  ⟨codepoints "Tv", none, some (.Literal (codepoints "television")), false⟩

/-- Example enum holding the three Weekday variants, no type-level policies. -/
def exampleEnum : TargetEnum :=
  ⟨codepoints "Weekday", [mondayV, tuesdayV, wednesdayV], none, none, false, true⟩

/-- The reverse-lookup branches generated for `exampleEnum`. -/
def exampleBranches : List FromStrBranch :=
  [⟨codepoints "DayAfterMonday", codepoints "tue", codepoints "Tuesday"⟩,
   ⟨codepoints "Wednesday", codepoints "Wed", codepoints "Wednesday"⟩]

/-- Example enum whose only variant is skipped: its iteration order is empty
while its variant list is not. -/
def allSkippedEnum : TargetEnum :=
  ⟨codepoints "Unit", [mondayV], none, none, false, false⟩

/-! Helper lemmas. -/

theorem byteLen_nil : byteLen [] = 0 := rfl

theorem byteLen_cons (c : Nat) (s : Str) :
    byteLen (c :: s) = utf8Size c + byteLen s := by
  simp [byteLen]

theorem utf8Size_asciiUpperChar (c : Nat) :
    utf8Size (asciiUpperChar c) = utf8Size c := by
  unfold asciiUpperChar
  split_ifs with h
  · unfold utf8Size; split_ifs <;> omega
  · rfl

theorem utf8Size_asciiLowerChar (c : Nat) :
    utf8Size (asciiLowerChar c) = utf8Size c := by
  unfold asciiLowerChar
  split_ifs with h
  · unfold utf8Size; split_ifs <;> omega
  · rfl

theorem utf8Size_unicodeLowerChar (c : Nat) :
    utf8Size (unicodeLowerChar c) = utf8Size c := by
  unfold unicodeLowerChar
  split_ifs with h h2
  · unfold utf8Size; split_ifs <;> omega
  · unfold utf8Size; split_ifs <;> omega
  · rfl

theorem byteLen_map_of_sizePreserving (f : Nat → Nat)
    (hf : ∀ c, utf8Size (f c) = utf8Size c) (s : Str) :
    byteLen (s.map f) = byteLen s := by
  induction s with
  | nil => rfl
  | cons c cs ih => simp [byteLen_cons, hf, ih]

theorem truncateBytes_map (f : Nat → Nat)
    (hf : ∀ c, utf8Size (f c) = utf8Size c) (s : Str) (n : Nat) :
    truncateBytes n (s.map f) = (truncateBytes n s).map (List.map f) := by
  induction s generalizing n with
  | nil => simp [truncateBytes]
  | cons c cs ih =>
    simp only [List.map_cons, truncateBytes, hf]
    by_cases h0 : n = 0
    · simp [h0]
    · simp only [h0, if_false]
      by_cases h1 : utf8Size c ≤ n
      · simp only [h1, if_true, ih]
        cases truncateBytes (n - utf8Size c) cs <;> simp
      · simp [h1]

theorem byteLen_truncateBytes_le (s : Str) :
    ∀ (n : Nat) (t : Str), truncateBytes n s = some t → byteLen t ≤ n := by
  induction s with
  | nil =>
    intro n t h
    simp only [truncateBytes, Option.some.injEq] at h
    simp [← h, byteLen_nil]
  | cons c cs ih =>
    intro n t h
    simp only [truncateBytes] at h
    by_cases h0 : n = 0
    · simp only [h0, if_true, Option.some.injEq] at h
      simp [← h, byteLen_nil]
    · simp only [h0, if_false] at h
      by_cases h1 : utf8Size c ≤ n
      · simp only [h1, if_true, Option.map_eq_some'] at h
        obtain ⟨t1, ht1, rfl⟩ := h
        have := ih (n - utf8Size c) t1 ht1
        simp only [byteLen_cons]
        omega
      · simp [h1] at h

theorem mapOption_nil (f : α → Option β) : mapOption f [] = some [] := rfl

theorem mapOption_cons_eq_some (f : α → Option β) (a : α) (l : List α)
    (bs : List β) (h : mapOption f (a :: l) = some bs) :
    ∃ b bs2, f a = some b ∧ mapOption f l = some bs2 ∧ bs = b :: bs2 := by
  simp only [mapOption, Option.bind_eq_some, Option.map_eq_some'] at h
  obtain ⟨b, hb, bs2, hbs2, rfl⟩ := h
  exact ⟨b, bs2, hb, hbs2, rfl⟩

theorem mapOption_map (f : α → Option β) (g : β → γ) (l : List α) :
    mapOption (fun a => (f a).map g) l = (mapOption f l).map (List.map g) := by
  induction l with
  | nil => rfl
  | cons a l ih =>
    simp only [mapOption, ih]
    cases f a <;> cases mapOption f l <;> simp

theorem as_str_eq_resolve_primary (v : TargetVariant)
    (tp : Option OuterRenameStrategy) : as_str v tp = resolve_primary v tp := by
  rcases v with ⟨i, r, ra, sk⟩
  rcases r with _ | r
  · rcases tp with _ | o
    · rfl
    · rcases o <;> rfl
  · rcases r <;> rfl

theorem outer_rename_abbr_uppercase_eq (v : TargetVariant) :
    outer_rename_abbr_uppercase v = inner_rename_abbr_uppercase v := rfl

theorem outer_rename_abbr_lowercase_eq (v : TargetVariant) :
    outer_rename_abbr_lowercase v = inner_rename_abbr_lowercase v := rfl

theorem byteLen_inner_rename_abbr_uppercase (v : TargetVariant) (s : Str)
    (h : inner_rename_abbr_uppercase v = some s) : byteLen s ≤ 3 := by
  unfold inner_rename_abbr_uppercase at h
  cases hir : inner_rename v with
  | some name =>
    rw [hir] at h
    exact byteLen_truncateBytes_le _ _ _ h
  | none =>
    rw [hir] at h
    unfold to_uppercase_string_abbr to_string_abbr to_abbr_in_place at h
    rw [Option.map_eq_some'] at h
    obtain ⟨t, ht, rfl⟩ := h
    calc byteLen (to_uppercase_in_place t)
        = byteLen t := byteLen_map_of_sizePreserving _ utf8Size_asciiUpperChar t
      _ ≤ 3 := byteLen_truncateBytes_le _ _ _ ht

theorem byteLen_inner_rename_abbr_lowercase (v : TargetVariant) (s : Str)
    (h : inner_rename_abbr_lowercase v = some s) : byteLen s ≤ 3 := by
  unfold inner_rename_abbr_lowercase at h
  cases hir : inner_rename v with
  | some name =>
    rw [hir] at h
    exact byteLen_truncateBytes_le _ _ _ h
  | none =>
    rw [hir] at h
    unfold to_lowercase_string_abbr to_string_abbr to_abbr_in_place at h
    rw [Option.map_eq_some'] at h
    obtain ⟨t, ht, rfl⟩ := h
    calc byteLen (to_lowercase_in_place t)
        = byteLen t := byteLen_map_of_sizePreserving _ utf8Size_asciiLowerChar t
      _ ≤ 3 := byteLen_truncateBytes_le _ _ _ ht

theorem from_str_lookup_nil (input : Str) :
    from_str_lookup [] input = .error .notFound := rfl

theorem from_str_lookup_mapOption (o oa : Option OuterRenameStrategy)
    (l : List TargetVariant) (bs : List FromStrBranch)
    (h : mapOption (fun v => from_str_match_branch v o oa) l = some bs)
    (input : Str) :
    from_str_lookup bs input =
      match l.find? (fun v => key_matches v o oa input) with
      | some v => Except.ok v.ident
      | none => Except.error FromStrError.notFound := by
  induction l generalizing bs with
  | nil =>
    simp only [mapOption_nil, Option.some.injEq] at h
    simp [← h, from_str_lookup_nil, List.find?]
  | cons v vs ih =>
    obtain ⟨b, bs2, hb, hbs2, rfl⟩ := mapOption_cons_eq_some _ _ _ _ h
    unfold from_str_match_branch at hb
    rw [Option.map_eq_some'] at hb
    obtain ⟨ab, hab, rfl⟩ := hb
    have hpq : (key_matches v o oa input)
        = ((as_str v o == input) || (ab == input)) := by
      unfold key_matches
      rw [hab]
      rfl
    cases hm : ((as_str v o == input) || (ab == input)) with
    | true => simp [from_str_lookup, List.find?, hm, hpq]
    | false =>
      have hrec := ih bs2 hbs2
      simp only [from_str_lookup, List.find?, hm, hpq] at hrec ⊢
      exact hrec

theorem find?_prefix_none (p : α → Bool) (l₁ : List α) (v : α) (l₂ : List α)
    (h1 : ∀ w ∈ l₁, p w = false) (hv : p v = true) :
    (l₁ ++ v :: l₂).find? p = some v := by
  induction l₁ with
  | nil => simp [List.find?_cons_of_pos _ hv]
  | cons a l ih =>
    rw [List.cons_append, List.find?_cons_of_neg _ (by simp [h1 a (by simp)])]
    exact ih fun w hw => h1 w (by simp [hw])

theorem intersperse_collect_eq_quoted_join_spec (l : List Str) :
    intersperse_collect (codepoints ", ") l = quoted_join_spec l := by
  induction l with
  | nil => rfl
  | cons s rest ih =>
    cases rest with
    | nil => simp [intersperse_collect, quoted_join_spec, List.intersperse]
    | cons b t =>
      simp only [intersperse_collect, List.intersperse, List.flatten_cons,
        quoted_join_spec] at *
      rw [← ih, List.append_assoc]

/-! Claim theorems. -/

/-- C1: for every symbol and every optional type-level primary policy, the
resolved primary name follows the 6-step cascade with first match winning
(value-level literal verbatim, value-level case transform, type-level case
transform, identifier unchanged); in particular any value-level policy wins
over any type-level one, and with no policy at either level the result is the
identifier. -/
theorem c1_primary_cascade (v : TargetVariant)
    (tp : Option OuterRenameStrategy) : as_str v tp = resolve_primary v tp :=
  as_str_eq_resolve_primary v tp

/-- C2: an abbreviated name resolved through a value-level or type-level
uppercase/lowercase abbreviation policy is the value-level primary base (the
value-level override if present, else the raw identifier, with no type-level
primary fallback) case-transformed and truncated to 3 bytes, the type-level
policy performing the same computation as the value-level one; with both
abbreviation policies absent it is the fully resolved primary name truncated
to its first 3 bytes with no case change. -/
theorem c2_abbr_base (i : Str) (r : Option InnerRenameStrategy) (sk : Bool)
    (o oa : Option OuterRenameStrategy) :
    as_str_abbr ⟨i, r, some .Uppercase, sk⟩ o oa
      = to_abbr_in_place
          (to_uppercase_in_place (value_level_primary_base ⟨i, r, some .Uppercase, sk⟩))
    ∧ as_str_abbr ⟨i, r, some .Lowercase, sk⟩ o oa
      = to_abbr_in_place
          (to_lowercase_in_place (value_level_primary_base ⟨i, r, some .Lowercase, sk⟩))
    ∧ as_str_abbr ⟨i, r, none, sk⟩ o (some .Uppercase)
      = to_abbr_in_place
          (to_uppercase_in_place (value_level_primary_base ⟨i, r, none, sk⟩))
    ∧ as_str_abbr ⟨i, r, none, sk⟩ o (some .Lowercase)
      = to_abbr_in_place
          (to_lowercase_in_place (value_level_primary_base ⟨i, r, none, sk⟩))
    ∧ as_str_abbr ⟨i, r, none, sk⟩ o none
      = to_abbr_in_place (resolve_primary ⟨i, r, none, sk⟩ o) := by
  refine ⟨?_, ?_, ?_, ?_, ?_⟩
  · rcases r with _ | r
    · exact (truncateBytes_map asciiUpperChar utf8Size_asciiUpperChar i 3).symm
    · rcases r <;> rfl
  · rcases r with _ | r
    · exact (truncateBytes_map asciiLowerChar utf8Size_asciiLowerChar i 3).symm
    · rcases r <;> rfl
  · rcases r with _ | r
    · exact (truncateBytes_map asciiUpperChar utf8Size_asciiUpperChar i 3).symm
    · rcases r <;> rfl
  · rcases r with _ | r
    · exact (truncateBytes_map asciiLowerChar utf8Size_asciiLowerChar i 3).symm
    · rcases r <;> rfl
  · exact congrArg to_abbr_in_place (as_str_eq_resolve_primary ⟨i, r, none, sk⟩ o)

/-- C3 evaluation at the failing input: on the two-code-point identifier
consisting of twice U+00E9 (4 UTF-8 bytes, with byte index 3 inside the second
code point), the 3-byte truncation is not defined — `String::truncate(3)`
aborts because 3 is not a character boundary — so abbreviated resolution with
no abbreviation policy aborts instead of returning a result. -/
theorem c3_truncation_aborts_on_multibyte :
    to_abbr_in_place (codepoints "éé") = none
    ∧ as_str_abbr ⟨codepoints "éé", none, none, false⟩ none none = none
    ∧ byteLen (codepoints "éé") = 4 := by decide

/-- C4 evaluation at the failing input: the lowercase transform used in
primary resolution (`IdentExt::to_lowercase_string`, Rust's Unicode-aware
`str::to_lowercase`) maps the non-ASCII code point U+00C9 to U+00E9, so a
non-ASCII code point does not pass through unchanged, contradicting the
spec's ASCII-only contract (which the uppercase transform and the
`StringExt` lowercase transform do satisfy). -/
theorem c4_lowercase_transform_changes_non_ascii :
    as_str ⟨codepoints "É", some .Lowercase, none, false⟩ none = codepoints "é"
    ∧ to_lowercase_string (codepoints "É") ≠ codepoints "É"
    ∧ codepoints "É" = [201] ∧ codepoints "é" = [233] := by decide

/-- C5: whenever the abbreviated name is produced by a non-literal path and
returns a result, that result has byte length at most 3; a value-level
literal abbreviation override is returned verbatim, never truncated,
whatever its length. -/
theorem c5_abbr_length (v : TargetVariant) (o oa : Option OuterRenameStrategy) :
    (∀ literal, v.rename_abbr = some (.Literal literal) →
      as_str_abbr v o oa = some literal)
    ∧ ((∀ literal, v.rename_abbr ≠ some (.Literal literal)) →
        ∀ s, as_str_abbr v o oa = some s → byteLen s ≤ 3) := by
  constructor
  · intro literal hl
    rcases v with ⟨i, r, ra, sk⟩
    simp only at hl
    subst hl
    rfl
  · intro hnl s hs
    rcases v with ⟨i, r, ra, sk⟩
    rcases ra with _ | ra
    · rcases oa with _ | u
      · exact byteLen_truncateBytes_le _ _ _ hs
      · cases u
        · exact byteLen_inner_rename_abbr_uppercase _ _ hs
        · exact byteLen_inner_rename_abbr_lowercase _ _ hs
    · rcases ra with l | _ | _
      · exact absurd rfl (hnl l)
      · exact byteLen_inner_rename_abbr_uppercase _ _ hs
      · exact byteLen_inner_rename_abbr_lowercase _ _ hs

/-- C5 witness: a 10-byte literal abbreviation override is returned verbatim. -/
theorem c5_abbr_length_witness :
    as_str_abbr televisionV none none = some (codepoints "television") :=
  (c5_abbr_length televisionV none none).1 (codepoints "television") rfl

/-- C6: a skipped symbol never appears in the iteration order; the iteration
order is the declaration-order subsequence of non-skipped symbols; the
iterable count is the number of symbols with skip false; and the primary
listing, abbreviated listing and reverse-map branches of a table coincide
with those of the table restricted to its non-skipped symbols, so skipped
symbols contribute to none of them. -/
theorem c6_skip_exclusion (e : TargetEnum) :
    (∀ v, v ∈ iter_iterable_variants e → v.skip = false ∧ v ∈ e.variants)
    ∧ (∀ v, v ∈ e.variants → v.skip = true → v ∉ iter_iterable_variants e)
    ∧ (iter_iterable_variants e).Sublist e.variants
    ∧ variants_count e = e.variants.countP (fun v => !v.skip)
    ∧ variants_list_string e
        = variants_list_string
            ⟨e.ident, iter_iterable_variants e, e.rename, e.rename_abbr,
              e.display, e.from_str⟩
    ∧ variants_list_string_abbr e
        = variants_list_string_abbr
            ⟨e.ident, iter_iterable_variants e, e.rename, e.rename_abbr,
              e.display, e.from_str⟩
    ∧ variants_from_str_match_branches e
        = variants_from_str_match_branches
            ⟨e.ident, iter_iterable_variants e, e.rename, e.rename_abbr,
              e.display, e.from_str⟩ := by
  have hmem : ∀ v, v ∈ iter_iterable_variants e → v.skip = false ∧ v ∈ e.variants := by
    intro v hv
    rw [iter_iterable_variants, iter_variants, List.mem_filter] at hv
    refine ⟨?_, hv.1⟩
    have h2 := hv.2
    simpa [is_iterable] using h2
  refine ⟨hmem, ?_, ?_, ?_, ?_, ?_, ?_⟩
  · intro v _ hskip hv
    rw [(hmem v hv).1] at hskip
    exact Bool.false_ne_true hskip
  · exact List.filter_sublist _
  · exact (List.countP_eq_length_filter _ _).symm
  · simp [variants_list_string, iter_iterable_variants, iter_variants,
      List.filter_filter]
  · simp [variants_list_string_abbr, iter_iterable_variants, iter_variants,
      List.filter_filter]
  · simp [variants_from_str_match_branches, iter_iterable_variants,
      iter_variants, List.filter_filter]

/-- C6 witness: the skipped Monday variant is absent from the iteration
order of the example table it belongs to. -/
theorem c6_skip_exclusion_witness :
    mondayV ∉ iter_iterable_variants exampleEnum :=
  (c6_skip_exclusion exampleEnum).2.1 mondayV (by simp [exampleEnum]) rfl

/-- C7: given the successfully generated reverse-map branches of a table,
lookup returns `Ok` exactly on the first non-skipped symbol, in declaration
order, whose resolved primary or abbreviated key equals the input
byte-for-byte (so an earlier-declared symbol's key shadows later ones), and
fails with `NotFound` precisely when no non-skipped symbol's key matches. -/
theorem c7_reverse_lookup (e : TargetEnum) (input : Str)
    (bs : List FromStrBranch)
    (hb : variants_from_str_match_branches e = some bs) :
    (from_str_lookup bs input =
      match (iter_iterable_variants e).find?
          (fun v => key_matches v e.rename e.rename_abbr input) with
      | some v => Except.ok v.ident
      | none => Except.error FromStrError.notFound)
    ∧ (from_str_lookup bs input = .error .notFound ↔
        ∀ v ∈ iter_iterable_variants e,
          key_matches v e.rename e.rename_abbr input = false)
    ∧ (∀ id, from_str_lookup bs input = .ok id →
        ∃ v, v ∈ iter_iterable_variants e
          ∧ key_matches v e.rename e.rename_abbr input = true
          ∧ id = v.ident) := by
  have hkey := from_str_lookup_mapOption e.rename e.rename_abbr _ bs hb input
  refine ⟨hkey, ?_, ?_⟩
  · rw [hkey]
    cases hf : (iter_iterable_variants e).find?
        (fun v => key_matches v e.rename e.rename_abbr input) with
    | some v =>
      simp only
      constructor
      · intro h
        exact absurd h (by simp)
      · intro hall
        have h1 := hall v (List.mem_of_find?_eq_some hf)
        have h2p := List.find?_some hf
        have h2 : key_matches v e.rename e.rename_abbr input = true := by
          exact h2p
        rw [h1] at h2
        exact absurd h2 (by simp)
    | none =>
      simp only
      constructor
      · intro _ v hv
        have := List.find?_eq_none.mp hf v hv
        simpa using this
      · intro _
        trivial
  · intro id hid
    rw [hkey] at hid
    cases hf : (iter_iterable_variants e).find?
        (fun v => key_matches v e.rename e.rename_abbr input) with
    | some v =>
      rw [hf] at hid
      simp only [Except.ok.injEq] at hid
      have hpp := List.find?_some hf
      have hp : key_matches v e.rename e.rename_abbr input = true := by
        exact hpp
      exact ⟨v, List.mem_of_find?_eq_some hf, hp, hid.symm⟩
    | none =>
      rw [hf] at hid
      exact absurd hid (by simp)

/-- C7 witness: looking up Wednesday's abbreviated key in the example table's
generated branches succeeds with the Wednesday variant. -/
theorem c7_reverse_lookup_witness :
    from_str_lookup exampleBranches (codepoints "Wed")
      = .ok (codepoints "Wednesday") := by
  have h := (c7_reverse_lookup exampleEnum (codepoints "Wed")
    exampleBranches rfl).1
  rw [h]
  rfl

/-- C8: for a non-skipped symbol of a table whose reverse-map branches were
generated, looking up its own resolved primary string returns that symbol,
and looking up its own resolved abbreviated string returns that symbol,
provided no earlier-declared non-skipped symbol's key equals that string. -/
theorem c8_round_trip (e : TargetEnum) (bs : List FromStrBranch)
    (hb : variants_from_str_match_branches e = some bs)
    (v : TargetVariant) (l1 l2 : List TargetVariant)
    (hsplit : iter_iterable_variants e = l1 ++ v :: l2) :
    ((∀ w ∈ l1, key_matches w e.rename e.rename_abbr (as_str v e.rename) = false) →
      from_str_lookup bs (as_str v e.rename) = .ok v.ident)
    ∧ (∀ ab, as_str_abbr v e.rename e.rename_abbr = some ab →
        (∀ w ∈ l1, key_matches w e.rename e.rename_abbr ab = false) →
        from_str_lookup bs ab = .ok v.ident) := by
  constructor
  · intro h1
    have hkey := from_str_lookup_mapOption e.rename e.rename_abbr _ bs hb
      (as_str v e.rename)
    rw [hsplit] at hkey
    have hv : key_matches v e.rename e.rename_abbr (as_str v e.rename) = true := by
      simp [key_matches]
    rw [find?_prefix_none _ l1 v l2 h1 hv] at hkey
    exact hkey
  · intro ab hab h1
    have hkey := from_str_lookup_mapOption e.rename e.rename_abbr _ bs hb ab
    rw [hsplit] at hkey
    have hv : key_matches v e.rename e.rename_abbr ab = true := by
      simp [key_matches, hab]
    rw [find?_prefix_none _ l1 v l2 h1 hv] at hkey
    exact hkey

/-- C8 witness: in the example table, looking up Tuesday's own resolved
primary string returns Tuesday (no earlier-declared symbol shares the key). -/
theorem c8_round_trip_witness :
    from_str_lookup exampleBranches (codepoints "DayAfterMonday")
      = .ok (codepoints "Tuesday") :=
  (c8_round_trip exampleEnum exampleBranches rfl tuesdayV [] [wednesdayV]
    rfl).1 (by simp)

/-- C9: the primary listing is each non-skipped symbol's resolved string
wrapped in double quotes, joined with the two-character comma-space
separator in declaration order; the abbreviated listing likewise whenever
its strings are all defined; and an empty iteration order yields the empty
string for both listings. -/
theorem c9_listing (e : TargetEnum) :
    variants_list_string e
      = quoted_join_spec ((iter_iterable_variants e).map
          (fun v => codepoints "\"" ++ as_str v e.rename ++ codepoints "\""))
    ∧ (∀ ss, mapOption (fun v => as_str_abbr v e.rename e.rename_abbr)
          (iter_iterable_variants e) = some ss →
        variants_list_string_abbr e
          = some (quoted_join_spec (ss.map
              (fun s => codepoints "\"" ++ s ++ codepoints "\""))))
    ∧ (iter_iterable_variants e = [] →
        variants_list_string e = [] ∧ variants_list_string_abbr e = some []) := by
  refine ⟨intersperse_collect_eq_quoted_join_spec _, ?_, ?_⟩
  · intro ss hss
    have h2 : mapOption (fun v => as_quoted_string_abbr v e.rename e.rename_abbr)
        (iter_iterable_variants e)
        = some (ss.map (fun s => codepoints "\"" ++ s ++ codepoints "\"")) := by
      have hmm := mapOption_map (fun v => as_str_abbr v e.rename e.rename_abbr)
        (fun s => codepoints "\"" ++ s ++ codepoints "\"")
        (iter_iterable_variants e)
      rw [hss] at hmm
      exact hmm
    unfold variants_list_string_abbr
    rw [h2, Option.map_some']
    rw [intersperse_collect_eq_quoted_join_spec]
  · intro h
    constructor
    · unfold variants_list_string
      rw [h]
      rfl
    · unfold variants_list_string_abbr
      rw [h]
      rfl

/-- C9 witness: a table whose only variant is skipped has an empty iteration
order and hence empty primary and abbreviated listings. -/
theorem c9_listing_witness :
    variants_list_string allSkippedEnum = []
    ∧ variants_list_string_abbr allSkippedEnum = some [] :=
  (c9_listing allSkippedEnum).2.2 rfl

/-- C10: the resolved primary and abbreviated names do not depend on the
skip flag (two symbols differing only in skip resolve identically), and the
generated `as_str` and `as_str_abbr` surfaces contain one match branch per
declared symbol, skipped symbols included. -/
theorem c10_skip_independence :
    (∀ (i : Str) (r ra : Option InnerRenameStrategy)
        (o oa : Option OuterRenameStrategy) (s1 s2 : Bool),
      as_str ⟨i, r, ra, s1⟩ o = as_str ⟨i, r, ra, s2⟩ o
      ∧ as_str_abbr ⟨i, r, ra, s1⟩ o oa = as_str_abbr ⟨i, r, ra, s2⟩ o oa)
    ∧ ∀ e : TargetEnum,
        (iter_variant_as_str_match_branches e).length = e.variants.length
        ∧ (iter_variant_as_str_abbr_match_branches e).length = e.variants.length
        ∧ ∀ v ∈ e.variants,
            as_str_match_branch v e.rename ∈ iter_variant_as_str_match_branches e
            ∧ as_str_abbr_match_branch v e.rename e.rename_abbr
                ∈ iter_variant_as_str_abbr_match_branches e := by
  refine ⟨fun i r ra o oa s1 s2 => ⟨rfl, rfl⟩, fun e => ⟨?_, ?_, ?_⟩⟩
  · simp [iter_variant_as_str_match_branches, iter_variants]
  · simp [iter_variant_as_str_abbr_match_branches, iter_variants]
  · intro v hv
    exact ⟨List.mem_map_of_mem _ hv, List.mem_map_of_mem _ hv⟩

/-- C10 witness: the skipped Monday variant still has its branch in the
generated `as_str` surface of the example table. -/
theorem c10_skip_independence_witness :
    as_str_match_branch mondayV exampleEnum.rename
      ∈ iter_variant_as_str_match_branches exampleEnum :=
  ((c10_skip_independence.2 exampleEnum).2.2 mondayV (by simp [exampleEnum])).1

end BeerecVariants
